import Mathlib

/-!
A verification development for `npt.py`, a Minecraft nether-portal linking
tool.  The Python source is shallowly embedded below: its pure functions
become Lean functions, the module-level mutable `portals` list becomes an
explicit `List Portal` parameter (and, for the impact checker which mutates
it, an explicit returned portal list), Python dicts become insertion-ordered
association lists with Python's update/delete semantics, and Python
exceptions (`AttributeError` on `None.label`, `KeyError` on missing dict
keys) become `Except String` results.

Numeric semantics.  Python's `/` on integers is true division producing an
IEEE-754 double: the exact rational quotient correctly rounded to 53 bits of
precision (round half to even).  `convert_to_nether` in the source computes
`math.floor(pos.x / 8)`; because division by 8 is an exact exponent shift on
doubles, the correctly rounded double of `x/8` equals `(roundDouble x)/8`,
so `math.floor(x / 8) = Int.fdiv (roundDouble x) 8`, which is how it is
modelled here (`roundDouble` is the identity for `|x| ≤ 2^53`; inputs so
large that the quotient overflows the double range, `|x| ≳ 2^1027`, would
raise `OverflowError` in Python and are outside this model).
`convert_to_overworld` computes `math.floor(pos.x * 8)` where `*` is exact
integer multiplication, so it is modelled as plain multiplication.
`euclidean_dist` in the source is
`math.sqrt(math.pow(dx,2) + math.pow(dy,2) + math.pow(dz,2))` computed in
IEEE doubles, and that rounding is observable: distinct exact distances can
collapse to the same double (e.g. the squared sums `10^16` and `10^16 + 1`
both become the double `10^16`), so the resolver can keep a candidate that
is not at minimal exact Euclidean distance.  The pipeline is therefore
modelled step by step: each coordinate difference is an exact Python `int`,
`math.pow(d, 2)` converts it to a double and squares it with correct
rounding (`powTwoFloat`; both a correctly rounded `pow` and the `x*x` an
IEEE multiplication would give), the two `+` are correctly rounded double
additions of integer-valued doubles (so `roundDoubleNat` of the exact
integer sums, left to right), and `math.sqrt` is the IEEE correctly rounded
square root (`rdSqrt`, round to nearest, ties to even), whose exact value
is a rational number.  Components so large that an intermediate overflows
the double range (Python would raise `OverflowError`) are outside the
model.  `exact_euclidean_dist_sq` is the exact squared distance; it is not
the program's distance and is used only to state what exact Euclidean
minimality would require.

The two integer primitives the rounding model needs, `⌊log₂ n⌋` and
`⌊√n⌋`, are written as fuel-bounded structural recursions (`log2Fuel`,
`natSqrtFuel`) so that every definition in the file evaluates by kernel
reduction.  The fuel `6000` makes both functions exact on every `n < 2^6000`
— astronomically beyond the double overflow bound (`≈ 2^1024`) past which
Python raises `OverflowError` and the model does not apply anyway.
-/

set_option maxRecDepth 4000

/-- `Position` namedtuple from the source: integer coordinates. -/
structure Position where
  x : Int
  y : Int
  z : Int
  deriving DecidableEq, Repr

/-- `Portal` namedtuple from the source. -/
structure Portal where
  label : String
  position : Position
  is_nether : Bool
  deriving DecidableEq, Repr

/-- Fuel-bounded `⌊log₂ n⌋`: halve until the argument reaches `1`.  Each
step of the recursion strictly halves `m`, so for every `n < 2 ^ fuel` the
fuel never runs out and the result is exactly `⌊log₂ n⌋` (and `0` for
`n = 0`). -/
def log2Fuel (fuel : Nat) (n : Nat) : Nat :=
  @Nat.rec (fun _ => Nat → Nat) (fun _ => 0)
    (fun _ ih m => if m ≤ 1 then 0 else ih (m / 2) + 1) fuel n

/-- Fuel-bounded integer square root by Heron / Newton iteration, the same
iteration `Nat.sqrt` uses: starting from `x = n ≥ ⌊√n⌋`, replace `x` by
`(x + n / x) / 2` while that strictly decreases; every iterate stays
`≥ ⌊√n⌋` and the first non-decreasing point is `⌊√n⌋` itself.  From
`x = n` the iterate at least halves while `x` is far above `√n`, so `6000`
steps are ample for every `n < 2 ^ 6000`. -/
def natSqrtFuel (n : Nat) : Nat :=
  @Nat.rec (fun _ => Nat → Nat → Nat) (fun _ x => x)
    (fun _ ih m x =>
      let x2 := (x + m / x) / 2
      if x2 < x then ih m x2 else x) 6000 n n

/-- Round a natural number to the nearest IEEE-754 double (53-bit precision,
round half to even), as CPython does when converting an `int` to `float`. -/
def roundDoubleNat (n : Nat) : Nat :=
  if n ≤ 2 ^ 53 then n
  else
    let k := log2Fuel 6000 n + 1 - 53
    let u := 2 ^ k
    let q := n / u
    let r := n % u
    if 2 * r < u then q * u
    else if 2 * r > u then (q + 1) * u
    else if q % 2 = 0 then q * u else (q + 1) * u

/-- Round an integer to the nearest IEEE-754 double.  Rounding to nearest,
ties to even, is symmetric about zero. -/
def roundDouble (x : Int) : Int :=
  if x < 0 then -(roundDoubleNat (-x).toNat) else (roundDoubleNat x.toNat : Nat)

/-- The IEEE-754 correctly rounded double square root of a nonnegative
integer `n` (round to nearest, ties to even), as an exact rational.  The
significand grid step around `√n` is `2^e` where `2^52 ≤ √n / 2^e < 2^53`;
`√n` is compared with the midpoint `(2q+1)/2 · 2^e` by exact integer
arithmetic (cross-squaring), so the result is the double `math.sqrt`
returns for an integer-valued double argument. -/
def rdSqrt (n : Nat) : ℚ :=
  if n = 0 then 0
  else
    let s := natSqrtFuel n
    let e : Int := (log2Fuel 6000 s : Int) + 1 - 53
    let t : Nat := if 0 ≤ e then n / 4 ^ e.toNat else n * 4 ^ (-e).toNat
    let q := natSqrtFuel t
    let A : Nat := if 0 ≤ e then 4 * n else 4 * t
    let B : Nat := if 0 ≤ e then (2 * q + 1) ^ 2 * 4 ^ e.toNat else (2 * q + 1) ^ 2
    let m : Nat :=
      if A < B then q
      else if B < A then q + 1
      else if q % 2 = 0 then q else q + 1
    if 0 ≤ e then ((m * 2 ^ e.toNat : Nat) : ℚ) else mkRat (m : Int) (2 ^ (-e).toNat)

/-- `math.pow(d, 2)` for an integer argument `d`: the argument is converted
to a double (`roundDouble`) and squared with correct rounding; the result
is an integer-valued double, here its exact integer value. -/
def powTwoFloat (d : Int) : Nat :=
  roundDoubleNat ((roundDouble d).natAbs ^ 2)

/-- `convert_to_nether(pos)` from the source:
`Position(x=math.floor(pos.x / 8), y=pos.y, z=math.floor(pos.z / 8))`
with Python float true division modelled as explained in the header. -/
def convert_to_nether (pos : Position) : Position :=
  { x := Int.fdiv (roundDouble pos.x) 8, y := pos.y, z := Int.fdiv (roundDouble pos.z) 8 }

/-- `convert_to_overworld(pos)` from the source:
`Position(x=math.floor(pos.x * 8), y=pos.y, z=math.floor(pos.z * 8))`
(integer multiplication is exact, `math.floor` is the identity on it). -/
def convert_to_overworld (pos : Position) : Position :=
  { x := pos.x * 8, y := pos.y, z := pos.z * 8 }

/-- `get_converted_coordinates(portal)` from the source. -/
def get_converted_coordinates (portal : Portal) : Position :=
  if portal.is_nether then convert_to_overworld portal.position
  else convert_to_nether portal.position

/-- `valid_portal_destination(portal, pos)` from the source. -/
def valid_portal_destination (portal : Portal) (pos : Position) : Bool :=
  let threshold : Int := if portal.is_nether then 128 else 16
  let converted_pos := get_converted_coordinates portal
  decide (|converted_pos.x - pos.x| ≤ threshold) &&
    decide (|converted_pos.z - pos.z| ≤ threshold)

/-- `euclidean_dist(pos1, pos2)` from the source:
`math.sqrt(math.pow(...x, 2) + math.pow(...y, 2) + math.pow(...z, 2))`
computed in IEEE doubles as described in the header — the value returned is
the exact rational value of the double the source computes.  The two `+`
add integer-valued doubles left to right, so each is `roundDoubleNat` of
the exact integer sum. -/
def euclidean_dist (pos1 pos2 : Position) : ℚ :=
  rdSqrt (roundDoubleNat
    (roundDoubleNat (powTwoFloat (pos2.x - pos1.x) + powTwoFloat (pos2.y - pos1.y)) +
      powTwoFloat (pos2.z - pos1.z)))

/-- The exact squared 3D distance.  This is not the program's distance
(`euclidean_dist` above); it only states what exact Euclidean minimality
would require. -/
def exact_euclidean_dist_sq (pos1 pos2 : Position) : Int :=
  (pos2.x - pos1.x) ^ 2 + (pos2.y - pos1.y) ^ 2 + (pos2.z - pos1.z) ^ 2

/-- `find_valid_portal_connections(portal)` from the source: the loop with
its two `continue` guards is the filter keeping portals that are not
structurally equal to `portal`, are in the opposite space, and are a valid
destination. -/
def find_valid_portal_connections (portal : Portal) (portals : List Portal) : List Portal :=
  portals.filter fun p =>
    !(decide (p = portal)) && !(decide (portal.is_nether = p.is_nether)) &&
      valid_portal_destination portal p.position

/-- The `for p in valid:` loop of `find_nether_connection`: tracks the
running minimum computed (double) distance, updating `destination` only on
a strict `<` between the doubles. -/
def nearestLoop (converted_pos : Position) (destination : Portal) (min_dist : ℚ) :
    List Portal → Portal
  | [] => destination
  | p :: ps =>
    if euclidean_dist converted_pos p.position < min_dist then
      nearestLoop converted_pos p (euclidean_dist converted_pos p.position) ps
    else
      nearestLoop converted_pos destination min_dist ps

/-- `find_nether_connection(portal)` from the source: `None` on an empty
candidate list, otherwise the first element seeds the minimum and the loop
scans the rest. -/
def find_nether_connection (portal : Portal) (portals : List Portal) : Option Portal :=
  match find_valid_portal_connections portal portals with
  | [] => none
  | first :: rest =>
    let converted_pos := get_converted_coordinates portal
    some (nearestLoop converted_pos first (euclidean_dist converted_pos first.position) rest)


/-! ## Python dict model

Python dicts preserve insertion order; assignment to an existing key keeps
its position and updates the value, assignment to a fresh key appends, and
`del` removes the entry (raising `KeyError` when absent).  Maps built here
always go through `dSet`, so keys stay unique and `del` is the filter that
drops the key. -/

/-- Insertion-ordered map, as a list of `(key, value)` pairs. -/
abbrev ConnMap := List (String × String)

/-- Whether `k` is a key (`k in m` in Python). -/
def dHasKey (m : ConnMap) (k : String) : Bool :=
  m.any fun e => e.1 = k

/-- Lookup (`m[k]`, as an `Option`). -/
def dGet? (m : ConnMap) (k : String) : Option String :=
  (m.find? fun e => e.1 = k).map (·.2)

/-- Assignment `m[k] = v`: update in place if present, else append. -/
def dSet (m : ConnMap) (k v : String) : ConnMap :=
  if dHasKey m k then m.map fun e => if e.1 = k then (k, v) else e
  else m ++ [(k, v)]

/-- `del m[k]` where the caller has already ensured `k` is present. -/
def dDel (m : ConnMap) (k : String) : ConnMap :=
  m.filter fun e => !(decide (e.1 = k))

/-- `del m[k]` in general: `KeyError` when the key is absent. -/
def dDelE (m : ConnMap) (k : String) : Except String ConnMap :=
  if dHasKey m k then .ok (dDel m k) else .error ("KeyError: " ++ k)

/-- Python's `str(Position(...))` rendering of a namedtuple. -/
def reprPos (p : Position) : String :=
  "Position(x=" ++ toString p.x ++ ", y=" ++ toString p.y ++ ", z=" ++ toString p.z ++ ")"

/-- The value stored for a portal in both connection-building loops:
`connection.label if connection else f"New portal near {get_converted_coordinates(portal)}"`. -/
def connValue (portal : Portal) (portals : List Portal) : String :=
  match find_nether_connection portal portals with
  | some connection => connection.label
  | none => "New portal near " ++ reprPos (get_converted_coordinates portal)

/-- One of the two `for portal in ...` loops of `get_connections`, which
assigns `connections[portal.label] = connValue portal`. -/
def connFold (portals : List Portal) (m : ConnMap) (group : List Portal) : ConnMap :=
  group.foldl (fun m p => dSet m p.label (connValue p portals)) m

/-- `get_connections()` from the source: overworld portals first, then
nether portals, each mapped to its connection value. -/
def get_connections (portals : List Portal) : ConnMap :=
  let overworld_portals := portals.filter fun p => p.is_nether = false
  let nether_portals := portals.filter fun p => p.is_nether = true
  connFold portals (connFold portals [] overworld_portals) nether_portals

/-- One step of the nether loop of `print_connections`.  The source reads
`existing_conn = connections[connection.label] if connection.label in connections else None`
before testing `connection` for `None`, so a nether portal whose resolved
connection is `None` raises `AttributeError` (`None.label`) here; that is
modelled as an `Except.error`. -/
def printConnStep (portals : List Portal) (st : ConnMap × List (String × String))
    (portal : Portal) : Except String (ConnMap × List (String × String)) :=
  match find_nether_connection portal portals with
  | none => .error "AttributeError: NoneType object has no attribute label"
  | some connection =>
    let existing_conn := dGet? st.1 connection.label
    if existing_conn = some portal.label then
      .ok (dDel st.1 connection.label, st.2 ++ [(connection.label, portal.label)])
    else
      .ok (dSet st.1 portal.label connection.label, st.2)

/-- The `for portal in nether_portals:` loop of `print_connections`,
stopping at the first raised exception. -/
def printConnFold (portals : List Portal) (st : ConnMap × List (String × String)) :
    List Portal → Except String (ConnMap × List (String × String))
  | [] => .ok st
  | p :: ps =>
    match printConnStep portals st p with
    | .error e => .error e
    | .ok st' => printConnFold portals st' ps

/-- The connection/bidirectional computation of `print_connections()` (its
graph-building part, before the target filter and printing): the overworld
loop fills the map, then the nether loop either collapses a bidirectional
pair or inserts the portal's own entry. -/
def print_connections_build (portals : List Portal) :
    Except String (ConnMap × List (String × String)) :=
  let overworld_portals := portals.filter fun p => p.is_nether = false
  let nether_portals := portals.filter fun p => p.is_nether = true
  let connections := connFold portals [] overworld_portals
  printConnFold portals (connections, []) nether_portals


deriving instance DecidableEq for Except

/-! ## The new-portal impact checker -/

/-- The geometric window test of `check_new_portal` (the condition of its
first `if`): the proposed nether position is more than 16 blocks away on X
or Z from the converted overworld position. -/
def geometric_violation (overworld_pos nether_pos : Position) : Bool :=
  let converted := convert_to_nether overworld_pos
  decide (nether_pos.x > converted.x + 16) || decide (nether_pos.x < converted.x - 16) ||
    decide (nether_pos.z > converted.z + 16) || decide (nether_pos.z < converted.z - 16)

/-- The synthetic overworld portal appended by `check_new_portal`. -/
def newOverworldPortal (pos : Position) : Portal :=
  { label := "NEW PORTAL (overworld)", position := pos, is_nether := false }

/-- The synthetic nether portal appended by `check_new_portal`. -/
def newNetherPortal (pos : Position) : Portal :=
  { label := "NEW PORTAL (nether)", position := pos, is_nether := true }

/-- The diff loop of `check_new_portal`:
`for key in connections.keys(): if connections[key] != new_connections[key]: ...`.
The lookup `new_connections[key]` raises `KeyError` when the key was
stripped from the post-insertion map (possible when an existing portal uses
a synthetic label), modelled as an `Except.error`. -/
def diffViolations (old new : ConnMap) : Except String (List (String × String)) :=
  match old with
  | [] => .ok []
  | (key, v) :: rest =>
    match dGet? new key with
    | none => .error ("KeyError: " ++ key)
    | some v' =>
      (diffViolations rest new).map fun vs =>
        (if v ≠ v' then [(key ++ " -> " ++ v, key ++ " -> " ++ v')] else []) ++ vs

/-- Result of one call to the impact checker:  the narrative output
(`print` / `print_if` lines), the returned boolean (or the Python exception,
as `Except.error`), and the state of the global `portals` list when the call
ends. -/
structure CheckOutcome where
  log : List String
  result : Except String Bool
  portals_after : List Portal
  deriving Repr

/-- `check_new_portal(overworld_pos, nether_pos, silent)` from the source.
The global `portals` list is passed in explicitly; the two `portals.append`
calls and the two `portals.pop()` calls become `++ [·]` and `List.dropLast`
on it, and the list the call leaves behind is returned in `portals_after`. -/
def check_new_portal (portals : List Portal) (overworld_pos nether_pos : Position)
    (silent : Bool) : CheckOutcome :=
  let print_if : String → List String := fun s => if silent then [] else [s]
  let header := print_if "Checking portals..." ++
    print_if ("Overworld: " ++ reprPos overworld_pos) ++
    print_if ("Nether: " ++ reprPos nether_pos) ++ print_if ""
  if geometric_violation overworld_pos nether_pos then
    { log := header ++ print_if
        "VIOLATION: Invalid nether position. Must be within 16 XZ blocks after converting the overworld position.",
      result := .ok false, portals_after := portals }
  else
    match portals.find? (fun p =>
        (!p.is_nether && decide (p.position = overworld_pos)) ||
          (p.is_nether && decide (p.position = nether_pos))) with
    | some portal =>
      { log := header ++ print_if ("VIOLATION: Collision with portal " ++ portal.label),
        result := .ok false, portals_after := portals }
    | none =>
      let connections := get_connections portals
      let portals1 := (portals ++ [newOverworldPortal overworld_pos]) ++
        [newNetherPortal nether_pos]
      let new_connections := get_connections portals1
      let portals2 := portals1.dropLast.dropLast
      match dDelE new_connections "NEW PORTAL (overworld)" with
      | .error e => { log := header, result := .error e, portals_after := portals2 }
      | .ok m1 =>
        match dDelE m1 "NEW PORTAL (nether)" with
        | .error e => { log := header, result := .error e, portals_after := portals2 }
        | .ok m2 =>
          match diffViolations connections m2 with
          | .error e => { log := header, result := .error e, portals_after := portals2 }
          | .ok violations =>
            if violations.isEmpty then
              { log := header ++ print_if "OK", result := .ok true, portals_after := portals2 }
            else
              { log := header ++ (violations.enum.foldl (fun acc iv =>
                  acc ++ print_if ("VIOLATION #" ++ toString (iv.1 + 1)) ++
                    print_if ("Old: " ++ iv.2.1) ++ print_if ("New: " ++ iv.2.2) ++
                    print_if "") []),
                result := .ok false, portals_after := portals2 }

/-- `[a, b]` for `a ≤ b`: the integers `a, a+1, ..., b-1` (Python
`range(a, b)`). -/
def intRange (a b : Int) : List Int :=
  (List.range (b - a).toNat).map fun (i : Nat) => a + (i : Int)

/-- The `check_new_portal` command path from the bottom of the source: the
proposed position itself is checked first (note the source passes
`args.threshold` as the `silent` argument there), and when the threshold is
nonzero the offset scan runs with `x` over `range(-threshold, threshold+1)`
but `y` and `z` over the two-element tuple `(-threshold, threshold+1)`.
Returns the accumulated `valid_overworld_positions`. -/
def batch_scan (portals : List Portal) (overworld_pos nether_pos : Position)
    (threshold : Int) : List Position :=
  let init :=
    if (check_new_portal portals overworld_pos nether_pos (decide (threshold ≠ 0))).result =
        .ok true then [overworld_pos] else []
  if threshold ≠ 0 then
    init ++ (intRange (-threshold) (threshold + 1)).flatMap fun x =>
      ([-threshold, threshold + 1] : List Int).flatMap fun y =>
        ([-threshold, threshold + 1] : List Int).flatMap fun z =>
          let new_pos : Position :=
            ⟨overworld_pos.x + x, overworld_pos.y + y, overworld_pos.z + z⟩
          if (check_new_portal portals new_pos nether_pos true).result = .ok true then
            [new_pos] else []
  else init


/-! ## Lemmas about the dict model -/

theorem dHasKey_nil (k : String) : dHasKey [] k = false := rfl

theorem dHasKey_cons (e : String × String) (m : ConnMap) (k : String) :
    dHasKey (e :: m) k = (decide (e.1 = k) || dHasKey m k) := by
  simp [dHasKey]

theorem dGet?_cons (e : String × String) (m : ConnMap) (k : String) :
    dGet? (e :: m) k = if e.1 = k then some e.2 else dGet? m k := by
  by_cases hek : e.1 = k
  · simp [dGet?, List.find?_cons, hek]
  · simp [dGet?, List.find?_cons, hek]

theorem dDel_cons (e : String × String) (m : ConnMap) (k : String) :
    dDel (e :: m) k = if e.1 = k then dDel m k else e :: dDel m k := by
  by_cases hek : e.1 = k <;> simp [dDel, List.filter_cons, hek]

theorem dGet?_isSome (m : ConnMap) (k : String) :
    (dGet? m k).isSome = dHasKey m k := by
  induction m with
  | nil => rfl
  | cons e m ih =>
    rw [dGet?_cons, dHasKey_cons]
    by_cases h : e.1 = k
    · simp [h]
    · simp [h, ih]

theorem dGet?_dSet_self (m : ConnMap) (k v : String) :
    dGet? (dSet m k v) k = some v := by
  unfold dSet
  split
  · rename_i h
    induction m with
    | nil => simp [dHasKey] at h
    | cons e m ih =>
      by_cases he : e.1 = k
      · simp [dGet?, List.find?_cons, he]
      · simp only [dHasKey, List.any_cons, Bool.or_eq_true, decide_eq_true_eq] at h
        rcases h with h | h
        · exact absurd h he
        · simpa [dGet?, List.find?_cons, he] using ih h
  · induction m with
    | nil => simp [dGet?]
    | cons e m ih =>
      rename_i h
      simp only [dHasKey, List.any_cons, Bool.or_eq_true, decide_eq_true_eq, not_or] at h
      simpa [dGet?, List.find?_cons, h.1] using ih (by simpa [dHasKey] using h.2)

theorem dGet?_map_update_ne (m : ConnMap) (k' v k : String) (h : k' ≠ k) :
    dGet? (m.map fun e => if e.1 = k' then (k', v) else e) k = dGet? m k := by
  induction m with
  | nil => rfl
  | cons e m ih =>
    by_cases he : e.1 = k'
    · have h1 : ¬(k' = k) := h
      have h2 : ¬(e.1 = k) := he ▸ h
      simp only [List.map_cons, if_pos he]
      simpa [dGet?, List.find?_cons, h1, h2] using ih
    · simp only [List.map_cons, if_neg he]
      by_cases hek : e.1 = k
      · simp [dGet?, List.find?_cons, hek]
      · simpa [dGet?, List.find?_cons, hek] using ih

theorem dGet?_append_single_ne (m : ConnMap) (k' v k : String) (h : k' ≠ k) :
    dGet? (m ++ [(k', v)]) k = dGet? m k := by
  induction m with
  | nil => simp [dGet?, List.find?_cons, fun hh : k' = k => h hh]
  | cons e m ih =>
    by_cases hek : e.1 = k
    · simp [dGet?, List.find?_cons, hek]
    · simpa [dGet?, List.find?_cons, hek] using ih

theorem dGet?_dSet_ne (m : ConnMap) (k' v k : String) (h : k' ≠ k) :
    dGet? (dSet m k' v) k = dGet? m k := by
  unfold dSet
  split
  · exact dGet?_map_update_ne m k' v k h
  · exact dGet?_append_single_ne m k' v k h

theorem dHasKey_dSet (m : ConnMap) (k' v k : String) :
    dHasKey (dSet m k' v) k = (dHasKey m k || decide (k' = k)) := by
  rw [← dGet?_isSome, ← dGet?_isSome]
  by_cases h : k' = k
  · subst h
    simp [dGet?_dSet_self m k' v, dGet?_isSome]
  · simp [dGet?_dSet_ne m k' v k h, h]

theorem dGet?_dDel_self (m : ConnMap) (k : String) : dGet? (dDel m k) k = none := by
  induction m with
  | nil => rfl
  | cons e m ih =>
    rw [dDel_cons]
    by_cases he : e.1 = k
    · rw [if_pos he]; exact ih
    · rw [if_neg he, dGet?_cons, if_neg he]; exact ih

theorem dGet?_dDel_ne (m : ConnMap) (k' k : String) (h : k' ≠ k) :
    dGet? (dDel m k') k = dGet? m k := by
  induction m with
  | nil => rfl
  | cons e m ih =>
    rw [dDel_cons]
    by_cases he1 : e.1 = k'
    · have he2 : ¬(e.1 = k) := fun hh => h (he1.symm.trans hh)
      rw [if_pos he1, ih, dGet?_cons, if_neg he2]
    · rw [if_neg he1, dGet?_cons, dGet?_cons]
      by_cases hek : e.1 = k
      · rw [if_pos hek, if_pos hek]
      · rw [if_neg hek, if_neg hek]; exact ih

theorem dHasKey_dDel_self (m : ConnMap) (k : String) : dHasKey (dDel m k) k = false := by
  rw [← dGet?_isSome, dGet?_dDel_self]
  rfl

theorem dHasKey_dDel_ne (m : ConnMap) (k' k : String) (h : k' ≠ k) :
    dHasKey (dDel m k') k = dHasKey m k := by
  rw [← dGet?_isSome, ← dGet?_isSome, dGet?_dDel_ne m k' k h]

theorem dHasKey_dDel_false (m : ConnMap) (k' k : String) (h : dHasKey m k = false) :
    dHasKey (dDel m k') k = false := by
  by_cases hk : k' = k
  · subst hk; exact dHasKey_dDel_self m k'
  · rw [dHasKey_dDel_ne m k' k hk]; exact h

theorem dDelE_ok (m : ConnMap) (k : String) (h : dHasKey m k = true) :
    dDelE m k = .ok (dDel m k) := by
  simp [dDelE, h]

/-! ## Lemmas about the connection-map folds -/

theorem connFold_cons (all : List Portal) (m : ConnMap) (p : Portal) (ps : List Portal) :
    connFold all m (p :: ps) = connFold all (dSet m p.label (connValue p all)) ps := rfl

theorem connFold_hasKey (all : List Portal) (ps : List Portal) (m : ConnMap) (k : String) :
    dHasKey (connFold all m ps) k = (dHasKey m k || ps.any fun p => p.label = k) := by
  induction ps generalizing m with
  | nil => simp [connFold]
  | cons p ps ih =>
    rw [connFold_cons, ih, dHasKey_dSet]
    simp [Bool.or_assoc]

theorem connFold_get_not_mem (all : List Portal) (ps : List Portal) (m : ConnMap) (k : String)
    (h : ∀ p ∈ ps, p.label ≠ k) :
    dGet? (connFold all m ps) k = dGet? m k := by
  induction ps generalizing m with
  | nil => rfl
  | cons p ps ih =>
    rw [connFold_cons, ih _ fun q hq => h q (List.mem_cons_of_mem p hq),
      dGet?_dSet_ne _ _ _ _ (h p (List.mem_cons_self p ps))]

theorem connFold_get_mem (all : List Portal) (ps : List Portal) (m : ConnMap) (a : Portal)
    (hnd : (ps.map Portal.label).Nodup) (ha : a ∈ ps) :
    dGet? (connFold all m ps) a.label = some (connValue a all) := by
  induction ps generalizing m with
  | nil => cases ha
  | cons p ps ih =>
    simp only [List.map_cons, List.nodup_cons] at hnd
    rcases List.mem_cons.mp ha with rfl | ha'
    · have hnotin : ∀ q ∈ ps, q.label ≠ a.label := by
        intro q hq hql
        exact hnd.1 (hql ▸ List.mem_map_of_mem Portal.label hq)
      rw [connFold_cons, connFold_get_not_mem _ _ _ _ hnotin, dGet?_dSet_self]
    · rw [connFold_cons]
      exact ih _ hnd.2 ha'

theorem any_label_filter_split (l : List Portal) (k : String) :
    (((l.filter fun p => p.is_nether = false).any fun p => p.label = k) ||
      ((l.filter fun p => p.is_nether = true).any fun p => p.label = k)) =
      (l.any fun p => p.label = k) := by
  induction l with
  | nil => rfl
  | cons p l ih =>
    cases hp : p.is_nether <;>
      simp [List.filter_cons, hp, List.any_cons, ← ih, Bool.or_assoc, Bool.or_left_comm]

theorem get_connections_hasKey (l : List Portal) (k : String) :
    dHasKey (get_connections l) k = l.any fun p => p.label = k := by
  unfold get_connections
  rw [connFold_hasKey, connFold_hasKey, dHasKey_nil, Bool.false_or]
  exact any_label_filter_split l k

theorem diffViolations_ok (old new : ConnMap) (h : ∀ e ∈ old, dHasKey new e.1 = true) :
    ∃ vs, diffViolations old new = .ok vs := by
  induction old with
  | nil => exact ⟨[], rfl⟩
  | cons e rest ih =>
    obtain ⟨key, v⟩ := e
    obtain ⟨vs, hvs⟩ := ih fun e' he' => h e' (List.mem_cons_of_mem _ he')
    have hk : (dGet? new key).isSome = true := by
      rw [dGet?_isSome]
      exact h (key, v) (List.mem_cons_self _ _)
    obtain ⟨v', hv'⟩ := Option.isSome_iff_exists.mp hk
    refine ⟨(if v ≠ v' then [(key ++ " -> " ++ v, key ++ " -> " ++ v')] else []) ++ vs, ?_⟩
    simp only [diffViolations, hv', hvs, Except.map]

/-! ## Generic list lemmas -/

theorem dropLast_append_two {α : Type} (l : List α) (a b : α) :
    (((l ++ [a]) ++ [b]).dropLast).dropLast = l := by
  rw [List.dropLast_concat, List.dropLast_concat]

theorem mem_intRange {a b x : Int} : x ∈ intRange a b ↔ a ≤ x ∧ x < b := by
  simp only [intRange, List.mem_map, List.mem_range]
  constructor
  · rintro ⟨i, hi, rfl⟩
    omega
  · rintro ⟨h1, h2⟩
    exact ⟨(x - a).toNat, by omega, by omega⟩


theorem mem_ite_singleton {c : Prop} [Decidable c] {q p : Position} :
    (p ∈ if c then [q] else ([] : List Position)) ↔ c ∧ p = q := by
  split
  · rename_i h; simp [h]
  · rename_i h; simp [h]

/-! ## Lemmas about the nearest-link loop -/

theorem exact_euclidean_dist_sq_nonneg (pos1 pos2 : Position) :
    0 ≤ exact_euclidean_dist_sq pos1 pos2 := by
  unfold exact_euclidean_dist_sq
  positivity

theorem nearestLoop_mem (conv : Position) (ps : List Portal) (best : Portal) (md : ℚ) :
    nearestLoop conv best md ps ∈ best :: ps := by
  induction ps generalizing best md with
  | nil => simp [nearestLoop]
  | cons p ps ih =>
    rw [nearestLoop]
    split
    · rcases List.mem_cons.mp (ih p (euclidean_dist conv p.position)) with h | h
      · rw [h]; exact List.mem_cons_of_mem _ (List.mem_cons_self p ps)
      · exact List.mem_cons_of_mem _ (List.mem_cons_of_mem p h)
    · rcases List.mem_cons.mp (ih best md) with h | h
      · rw [h]; exact List.mem_cons_self _ _
      · exact List.mem_cons_of_mem _ (List.mem_cons_of_mem p h)

/-- The loop of `find_nether_connection`, seeded with the first candidate's
distance, returns the first candidate attaining the minimum distance: the
candidate list splits as `l1 ++ winner :: l2` where the winner's distance is
a global minimum and every candidate before it is strictly farther. -/
theorem nearestLoop_spec (conv : Position) (ps : List Portal) (best : Portal) :
    ∃ l1 l2,
      best :: ps =
        l1 ++ nearestLoop conv best (euclidean_dist conv best.position) ps :: l2 ∧
      (∀ q ∈ best :: ps,
        euclidean_dist conv
            (nearestLoop conv best (euclidean_dist conv best.position) ps).position ≤
          euclidean_dist conv q.position) ∧
      (∀ q ∈ l1,
        euclidean_dist conv
            (nearestLoop conv best (euclidean_dist conv best.position) ps).position <
          euclidean_dist conv q.position) := by
  induction ps generalizing best with
  | nil =>
    refine ⟨[], [], rfl, ?_, by simp⟩
    intro q hq
    rcases List.mem_cons.mp hq with rfl | hq'
    · exact le_refl _
    · cases hq'
  | cons p ps ih =>
    rw [nearestLoop]
    by_cases hlt :
        euclidean_dist conv p.position < euclidean_dist conv best.position
    · rw [if_pos hlt]
      obtain ⟨l1, l2, heq, hle, hstrict⟩ := ih p
      have hrp := hle p (List.mem_cons_self p ps)
      have hrb := lt_of_le_of_lt hrp hlt
      refine ⟨best :: l1, l2, ?_, ?_, ?_⟩
      · rw [List.cons_append, ← heq]
      · intro q hq
        rcases List.mem_cons.mp hq with rfl | hq'
        · exact le_of_lt hrb
        · exact hle q hq'
      · intro q hq
        rcases List.mem_cons.mp hq with rfl | hq'
        · exact hrb
        · exact hstrict q hq'
    · rw [if_neg hlt]
      have hbp := not_lt.mp hlt
      obtain ⟨l1, l2, heq, hle, hstrict⟩ := ih best
      cases l1 with
      | nil =>
        rw [List.nil_append] at heq
        injection heq with h1 h2
        refine ⟨[], p :: ps, ?_, ?_, by simp⟩
        · rw [List.nil_append, ← h1]
        · intro q hq
          rcases List.mem_cons.mp hq with rfl | hq'
          · rw [← h1]
          · rcases List.mem_cons.mp hq' with rfl | hq''
            · rw [← h1]; exact hbp
            · exact hle q (List.mem_cons_of_mem best hq'')
      | cons b0 l1' =>
        rw [List.cons_append] at heq
        injection heq with h1 h2
        have hb0 : best ∈ b0 :: l1' := h1 ▸ List.mem_cons_self b0 l1'
        have hrbest := hstrict best hb0
        refine ⟨best :: p :: l1', l2, ?_, ?_, ?_⟩
        · rw [List.cons_append, List.cons_append, ← h2]
        · intro q hq
          rcases List.mem_cons.mp hq with rfl | hq'
          · exact hle q (List.mem_cons_self q ps)
          · rcases List.mem_cons.mp hq' with rfl | hq''
            · exact le_of_lt (lt_of_lt_of_le hrbest hbp)
            · exact hle q (List.mem_cons_of_mem best hq'')
        · intro q hq
          rcases List.mem_cons.mp hq with rfl | hq'
          · exact hrbest
          · rcases List.mem_cons.mp hq' with rfl | hq''
            · exact lt_of_lt_of_le hrbest hbp
            · exact hstrict q (h1 ▸ List.mem_cons_of_mem b0 hq'')

/-! ## Claim theorems -/

/-- C1: for every portal set and every pair of proposed positions, after a
call to `check_new_portal` (whatever the outcome: geometric rejection,
collision rejection, linkage violations, valid, or a raised exception), the
portal set has exactly the same length and the same elements in the same
order as before the call: the provisional append of the two synthetic
portals is always rolled back. -/
theorem claim1_impact_check_rollback (portals : List Portal)
    (overworld_pos nether_pos : Position) (silent : Bool) :
    (check_new_portal portals overworld_pos nether_pos silent).portals_after = portals ∧
      (check_new_portal portals overworld_pos nether_pos silent).portals_after.length =
        portals.length := by
  have h : (check_new_portal portals overworld_pos nether_pos silent).portals_after =
      portals := by
    unfold check_new_portal
    dsimp only
    split
    · rfl
    · split
      · rfl
      · split
        · exact dropLast_append_two portals _ _
        · split
          · exact dropLast_append_two portals _ _
          · split
            · exact dropLast_append_two portals _ _
            · split
              · exact dropLast_append_two portals _ _
              · exact dropLast_append_two portals _ _
  exact ⟨h, by rw [h]⟩

/-- C6: `check_new_portal` returns `False` (with the portal set untouched,
before any provisional insertion or graph diff) whenever the proposed
nether position differs by more than 16 on X or more than 16 on Z from
`convert_to_nether` of the proposed overworld position; the flagging
condition holds exactly outside that window, so positions at exactly ±16
offset pass this check (and the Y coordinate does not enter it). -/
theorem claim6_geometric_window (portals : List Portal)
    (overworld_pos nether_pos : Position) (silent : Bool) :
    (geometric_violation overworld_pos nether_pos = true ↔
      (16 < |nether_pos.x - (convert_to_nether overworld_pos).x| ∨
        16 < |nether_pos.z - (convert_to_nether overworld_pos).z|)) ∧
    (geometric_violation overworld_pos nether_pos = true →
      (check_new_portal portals overworld_pos nether_pos silent).result = .ok false ∧
        (check_new_portal portals overworld_pos nether_pos silent).portals_after =
          portals) := by
  constructor
  · unfold geometric_violation
    dsimp only
    simp only [Bool.or_eq_true, decide_eq_true_eq, lt_abs]
    omega
  · intro h
    constructor
    · unfold check_new_portal
      dsimp only
      rw [if_pos h]
    · unfold check_new_portal
      dsimp only
      rw [if_pos h]

/-- Witness for C6 at a concrete input: an offset of 17 on X is flagged and
rejected, an offset of exactly 16 is not flagged by the geometric check. -/
theorem claim6_geometric_window_witness :
    (check_new_portal [] ⟨0, 0, 0⟩ ⟨17, 5, 0⟩ false).result = .ok false ∧
      geometric_violation ⟨0, 0, 0⟩ ⟨16, 5, 0⟩ = false :=
  ⟨((claim6_geometric_window [] ⟨0, 0, 0⟩ ⟨17, 5, 0⟩ false).2 (by decide)).1, by decide⟩

/-- C9: the `silent` flag of `check_new_portal` only suppresses narrative
output; the returned outcome is identical with `silent=True` and
`silent=False` on the same inputs. -/
theorem claim9_silent_same_result (portals : List Portal)
    (overworld_pos nether_pos : Position) :
    (check_new_portal portals overworld_pos nether_pos true).result =
      (check_new_portal portals overworld_pos nether_pos false).result := by
  unfold check_new_portal
  dsimp only
  by_cases h1 : geometric_violation overworld_pos nether_pos = true
  · rw [if_pos h1, if_pos h1]
  · rw [if_neg h1, if_neg h1]
    split
    · rfl
    · split
      · rfl
      · split
        · rfl
        · split
          · rfl
          · split
            · rfl
            · rfl

/-- C2 (code bug): in `print_connections`, a nether portal whose resolved
link is `None` raises `AttributeError` — the line
`connections[connection.label] if connection.label in connections else None`
evaluates `connection.label` before any `None` check — so the builder does
not complete with a placeholder entry.  On the same input, `get_connections`
(which guards with `if connection`) completes and produces the placeholder,
showing the intended behaviour for the `None` case. -/
theorem claim2_none_link_raises :
    print_connections_build
        [{ label := "far away", position := ⟨10000, 64, 10000⟩, is_nether := false },
         { label := "lonely", position := ⟨0, 64, 0⟩, is_nether := true }] =
      .error "AttributeError: NoneType object has no attribute label" ∧
    get_connections
        [{ label := "far away", position := ⟨10000, 64, 10000⟩, is_nether := false },
         { label := "lonely", position := ⟨0, 64, 0⟩, is_nether := true }] =
      [("far away", "New portal near Position(x=1250, y=64, z=1250)"),
       ("lonely", "New portal near Position(x=0, y=64, z=0)")] :=
  ⟨rfl, rfl⟩

/-- C5: whenever `find_nether_connection` returns a portal, it is in the
opposite space from the input portal and is not the same entity; a portal
never links into its own space. -/
theorem claim5_opposite_space (portal : Portal) (portals : List Portal) (c : Portal)
    (h : find_nether_connection portal portals = some c) :
    c.is_nether = !portal.is_nether ∧ c ≠ portal := by
  unfold find_nether_connection at h
  cases hv : find_valid_portal_connections portal portals with
  | nil => rw [hv] at h; cases h
  | cons first rest =>
    rw [hv] at h
    dsimp only at h
    injection h with h'
    have hmem : c ∈ first :: rest := h' ▸ nearestLoop_mem _ rest first _
    have hmem' : c ∈ find_valid_portal_connections portal portals := by
      rw [hv]; exact hmem
    have hp := List.of_mem_filter hmem'
    simp only [Bool.and_eq_true, Bool.not_eq_true', decide_eq_false_iff_not] at hp
    obtain ⟨⟨hne, hsp⟩, _⟩ := hp
    refine ⟨?_, hne⟩
    cases hcn : c.is_nether <;> cases hpn : portal.is_nether <;> simp_all

/-- Witness for C5 at a concrete input. -/
theorem claim5_opposite_space_witness :
    find_nether_connection { label := "A", position := ⟨0, 64, 0⟩, is_nether := false }
        [{ label := "A", position := ⟨0, 64, 0⟩, is_nether := false },
         { label := "B", position := ⟨0, 64, 0⟩, is_nether := true }] =
      some { label := "B", position := ⟨0, 64, 0⟩, is_nether := true } ∧
    ((true : Bool) = !false ∧
      ({ label := "B", position := ⟨0, 64, 0⟩, is_nether := true } : Portal) ≠
        { label := "A", position := ⟨0, 64, 0⟩, is_nether := false }) :=
  ⟨by decide,
    claim5_opposite_space { label := "A", position := ⟨0, 64, 0⟩, is_nether := false }
      [{ label := "A", position := ⟨0, 64, 0⟩, is_nether := false },
       { label := "B", position := ⟨0, 64, 0⟩, is_nether := true }]
      { label := "B", position := ⟨0, 64, 0⟩, is_nether := true } (by decide)⟩

/-- C4 (amended): for a portal with a non-empty candidate list, the
resolver returns the candidate whose *computed* distance — the program's
IEEE-double evaluation of `sqrt(dx²+dy²+dz²)`, modelled exactly by
`euclidean_dist` — is minimal, and among candidates whose computed
distances tie it returns the one earliest in input order (the candidate
list splits as `l1 ++ c :: l2` with every member of `l1` strictly farther
in computed distance).  Because the double rounding can collapse distinct
exact distances, this does not always coincide with minimal exact Euclidean
distance (see the counterexample). -/
theorem claim4_nearest_computed_distance (portal : Portal) (portals : List Portal)
    (h : find_valid_portal_connections portal portals ≠ []) :
    ∃ c l1 l2,
      find_nether_connection portal portals = some c ∧
      find_valid_portal_connections portal portals = l1 ++ c :: l2 ∧
      (∀ q ∈ find_valid_portal_connections portal portals,
        euclidean_dist (get_converted_coordinates portal) c.position ≤
          euclidean_dist (get_converted_coordinates portal) q.position) ∧
      (∀ q ∈ l1,
        euclidean_dist (get_converted_coordinates portal) c.position <
          euclidean_dist (get_converted_coordinates portal) q.position) := by
  cases hv : find_valid_portal_connections portal portals with
  | nil => exact absurd hv h
  | cons first rest =>
    obtain ⟨l1, l2, heq, hle, hstrict⟩ :=
      nearestLoop_spec (get_converted_coordinates portal) rest first
    refine ⟨nearestLoop (get_converted_coordinates portal) first
        (euclidean_dist (get_converted_coordinates portal) first.position) rest,
      l1, l2, ?_, heq, hle, hstrict⟩
    unfold find_nether_connection
    rw [hv]

/-- `10^16` is exactly representable as a double (its significand `5^16`
fits in 53 bits). -/
theorem roundDoubleNat_ten_pow_16 : roundDoubleNat (10 ^ 16) = 10 ^ 16 := by decide

/-- `10^16 + 1` sits exactly halfway between the doubles `10^16` and
`10^16 + 2`; the tie goes to the even significand `5·10^15`, i.e. to
`10^16`.  This is the double-rounding collapse the counterexample uses. -/
theorem roundDoubleNat_ten_pow_16_add_1 : roundDoubleNat (10 ^ 16 + 1) = 10 ^ 16 := by decide

/-- The computed distances from `(0,0,0)` to `(1, 10^8, 0)` and to
`(0, 10^8, 0)` are the same double: the exact squared sums `10^16 + 1` and
`10^16` both round to the double `10^16` before the square root. -/
theorem euclidean_dist_collapse :
    euclidean_dist ⟨0, 0, 0⟩ ⟨1, 10 ^ 8, 0⟩ = euclidean_dist ⟨0, 0, 0⟩ ⟨0, 10 ^ 8, 0⟩ := by
  decide

/-- C4 counterexample: with converted position `(0,0,0)` and nether
candidates B1 = `(1, 10^8, 0)` (earlier) and B2 = `(0, 10^8, 0)` (later),
the program's float distances tie (both `sqrt` of the double `10^16`), so
the strict-`<` update never fires and the resolver returns B1 — whose exact
3D Euclidean distance is strictly larger than B2's.  The claim that the
resolver always returns the candidate at minimal exact Euclidean distance
is therefore false. -/
theorem claim4_exact_minimality_counterexample :
    find_nether_connection ⟨"A", ⟨0, 0, 0⟩, false⟩
        [⟨"A", ⟨0, 0, 0⟩, false⟩, ⟨"B1", ⟨1, 10 ^ 8, 0⟩, true⟩,
         ⟨"B2", ⟨0, 10 ^ 8, 0⟩, true⟩] =
      some ⟨"B1", ⟨1, 10 ^ 8, 0⟩, true⟩ ∧
    (⟨"B2", ⟨0, 10 ^ 8, 0⟩, true⟩ : Portal) ∈
      find_valid_portal_connections ⟨"A", ⟨0, 0, 0⟩, false⟩
        [⟨"A", ⟨0, 0, 0⟩, false⟩, ⟨"B1", ⟨1, 10 ^ 8, 0⟩, true⟩,
         ⟨"B2", ⟨0, 10 ^ 8, 0⟩, true⟩] ∧
    Real.sqrt ((exact_euclidean_dist_sq
        (get_converted_coordinates ⟨"A", ⟨0, 0, 0⟩, false⟩) ⟨0, 10 ^ 8, 0⟩ : Int) : ℝ) <
      Real.sqrt ((exact_euclidean_dist_sq
        (get_converted_coordinates ⟨"A", ⟨0, 0, 0⟩, false⟩) ⟨1, 10 ^ 8, 0⟩ : Int) : ℝ) ∧
    (⟨"B1", ⟨1, 10 ^ 8, 0⟩, true⟩ : Portal) ≠ ⟨"B2", ⟨0, 10 ^ 8, 0⟩, true⟩ := by
  refine ⟨by decide, by decide, ?_, by decide⟩
  refine Real.sqrt_lt_sqrt ?_ ?_
  · exact_mod_cast exact_euclidean_dist_sq_nonneg _ _
  · exact_mod_cast (by decide :
      exact_euclidean_dist_sq
          (get_converted_coordinates ⟨"A", ⟨0, 0, 0⟩, false⟩) ⟨0, 10 ^ 8, 0⟩ <
        exact_euclidean_dist_sq
          (get_converted_coordinates ⟨"A", ⟨0, 0, 0⟩, false⟩) ⟨1, 10 ^ 8, 0⟩)

/-! ## Claims about the coordinate converter (C8) -/

theorem roundDoubleNat_of_le (n : Nat) (h : n ≤ 2 ^ 53) : roundDoubleNat n = n := by
  unfold roundDoubleNat
  rw [if_pos h]

theorem roundDouble_of_abs_le (x : Int) (h : |x| ≤ 2 ^ 53) : roundDouble x = x := by
  obtain ⟨h1, h2⟩ := abs_le.mp h
  unfold roundDouble
  by_cases hx : x < 0
  · rw [if_pos hx, roundDoubleNat_of_le _ (by omega)]
    omega
  · rw [if_neg hx, roundDoubleNat_of_le _ (by omega)]
    omega

theorem fdiv_eight_eq_rat_floor (x : Int) : Int.fdiv x 8 = ⌊(x : ℚ) / 8⌋ := by
  rw [Int.fdiv_eq_ediv x (by norm_num)]
  symm
  rw [Int.floor_eq_iff]
  constructor
  · rw [le_div_iff₀ (by norm_num : (0 : ℚ) < 8)]
    exact_mod_cast (show (x / 8) * 8 ≤ x by omega)
  · rw [div_lt_iff₀ (by norm_num : (0 : ℚ) < 8)]
    exact_mod_cast (show x < (x / 8 + 1) * 8 by omega)

/-- `float(2^56 + 8)` rounds to `2^56`: the value sits exactly halfway
between the doubles `2^56` and `2^56 + 16`, and ties go to the even
significand. -/
theorem roundDouble_two_pow_56_add_8 : roundDouble (2 ^ 56 + 8) = 2 ^ 56 := by decide

/-- C8 counterexample: at `x = 2^56 + 8` the code's x-conversion
(`math.floor(x / 8)` through Python float true division) yields `2^53`,
while exact integer floor division gives `floor(x/8) = 2^53 + 1`, so the
claimed identity fails for integers of unbounded magnitude. -/
theorem claim8_counterexample :
    (convert_to_nether ⟨2 ^ 56 + 8, 0, 0⟩).x = 2 ^ 53 ∧
      Int.fdiv (2 ^ 56 + 8) 8 = 2 ^ 53 + 1 ∧
      (convert_to_nether ⟨2 ^ 56 + 8, 0, 0⟩).x ≠ Int.fdiv (2 ^ 56 + 8) 8 := by
  decide

/-- C8 (amended): for every integer `x` with `|x| ≤ 2^53` (the range on
which a double represents `x` exactly), the x component of
`convert_to_nether (x, y, z)` equals floor division `x/8` toward negative
infinity computed over the exact integers (e.g. `x = -9` gives `-2`); for
larger magnitudes the float rounding inside Python's true division can
diverge from the exact floor. -/
theorem claim8_floor_division_bounded (x y z : Int) (h : |x| ≤ 2 ^ 53) :
    (convert_to_nether ⟨x, y, z⟩).x = Int.fdiv x 8 ∧
      Int.fdiv x 8 = ⌊(x : ℚ) / 8⌋ := by
  constructor
  · show Int.fdiv (roundDouble x) 8 = Int.fdiv x 8
    rw [roundDouble_of_abs_le x h]
  · exact fdiv_eight_eq_rat_floor x

/-- Witness for the amended C8 at `x = -9`: the result is `-2`
(floor toward negative infinity), not `-1`. -/
theorem claim8_floor_division_bounded_witness :
    |(-9 : Int)| ≤ 2 ^ 53 ∧
      ((convert_to_nether ⟨-9, 0, 0⟩).x = Int.fdiv (-9) 8 ∧
        Int.fdiv (-9) 8 = ⌊((-9 : Int) : ℚ) / 8⌋) ∧
      Int.fdiv (-9) 8 = -2 :=
  ⟨by decide, claim8_floor_division_bounded (-9) 0 0 (by decide), by decide⟩

/-- Witness for the amended C4 at a concrete input. -/
theorem claim4_nearest_computed_distance_witness :
    find_valid_portal_connections ⟨"A", ⟨0, 0, 0⟩, false⟩
        [⟨"A", ⟨0, 0, 0⟩, false⟩, ⟨"B1", ⟨3, 4, 0⟩, true⟩,
         ⟨"B2", ⟨0, 0, 5⟩, true⟩, ⟨"B3", ⟨5, 0, 0⟩, true⟩] ≠ [] ∧
    (∃ c l1 l2,
      find_nether_connection ⟨"A", ⟨0, 0, 0⟩, false⟩
          [⟨"A", ⟨0, 0, 0⟩, false⟩, ⟨"B1", ⟨3, 4, 0⟩, true⟩,
           ⟨"B2", ⟨0, 0, 5⟩, true⟩, ⟨"B3", ⟨5, 0, 0⟩, true⟩] = some c ∧
      find_valid_portal_connections ⟨"A", ⟨0, 0, 0⟩, false⟩
          [⟨"A", ⟨0, 0, 0⟩, false⟩, ⟨"B1", ⟨3, 4, 0⟩, true⟩,
           ⟨"B2", ⟨0, 0, 5⟩, true⟩, ⟨"B3", ⟨5, 0, 0⟩, true⟩] = l1 ++ c :: l2 ∧
      (∀ q ∈ find_valid_portal_connections ⟨"A", ⟨0, 0, 0⟩, false⟩
          [⟨"A", ⟨0, 0, 0⟩, false⟩, ⟨"B1", ⟨3, 4, 0⟩, true⟩,
           ⟨"B2", ⟨0, 0, 5⟩, true⟩, ⟨"B3", ⟨5, 0, 0⟩, true⟩],
        euclidean_dist (get_converted_coordinates ⟨"A", ⟨0, 0, 0⟩, false⟩) c.position ≤
          euclidean_dist (get_converted_coordinates ⟨"A", ⟨0, 0, 0⟩, false⟩) q.position) ∧
      (∀ q ∈ l1,
        euclidean_dist (get_converted_coordinates ⟨"A", ⟨0, 0, 0⟩, false⟩) c.position <
          euclidean_dist (get_converted_coordinates ⟨"A", ⟨0, 0, 0⟩, false⟩) q.position)) :=
  ⟨by decide,
    claim4_nearest_computed_distance ⟨"A", ⟨0, 0, 0⟩, false⟩
      [⟨"A", ⟨0, 0, 0⟩, false⟩, ⟨"B1", ⟨3, 4, 0⟩, true⟩,
       ⟨"B2", ⟨0, 0, 5⟩, true⟩, ⟨"B3", ⟨5, 0, 0⟩, true⟩] (by decide)⟩

/-- C7 counterexample: with no existing portals, proposed overworld
position (0,0,0), nether position (0,0,0) and radius 1, the offset
`(dx, dy, dz) = (1, 0, 0)` lies in the full cuboid `[-1,1]^3` and passes
the impact check against the same fixed nether position, yet the scan does
not yield it (its y/z loops only visit the endpoints `-R` and `R+1`). -/
theorem claim7_counterexample :
    (check_new_portal [] ⟨1, 0, 0⟩ ⟨0, 0, 0⟩ true).result = .ok true ∧
      ((-1 : Int) ≤ 1 ∧ (1 : Int) ≤ 1) ∧ ((-1 : Int) ≤ 0 ∧ (0 : Int) ≤ 1) ∧
      (⟨1, 0, 0⟩ : Position) ∉ batch_scan [] ⟨0, 0, 0⟩ ⟨0, 0, 0⟩ 1 := by
  decide

/-- C7 (amended): for a nonzero radius `R`, the positions yielded by the
batch scan are: the proposed position itself when it passes the impact
check, together with the offset positions whose `x` offset ranges over the
full interval `[-R, R]` but whose `y` and `z` offsets take only the two
endpoint values `-R` and `R+1`, and which pass the impact check against
the same fixed nether position. -/
theorem claim7_scan_membership (portals : List Portal) (ow ne : Position) (R : Int)
    (hR : R ≠ 0) (p : Position) :
    p ∈ batch_scan portals ow ne R ↔
      ((check_new_portal portals ow ne (decide (R ≠ 0))).result = .ok true ∧ p = ow) ∨
      (∃ dx, (-R ≤ dx ∧ dx < R + 1) ∧ ∃ dy, (dy = -R ∨ dy = R + 1) ∧
        ∃ dz, (dz = -R ∨ dz = R + 1) ∧
          ((check_new_portal portals ⟨ow.x + dx, ow.y + dy, ow.z + dz⟩ ne true).result =
              .ok true ∧
            p = ⟨ow.x + dx, ow.y + dy, ow.z + dz⟩)) := by
  unfold batch_scan
  rw [if_pos hR, List.mem_append]
  simp only [List.mem_flatMap, List.mem_cons, List.not_mem_nil, or_false, mem_intRange,
    mem_ite_singleton]

/-- Witness for the amended C7 at a concrete input. -/
theorem claim7_scan_membership_witness :
    (1 : Int) ≠ 0 ∧
      ((⟨0, 0, 0⟩ : Position) ∈ batch_scan [] ⟨0, 0, 0⟩ ⟨0, 0, 0⟩ 1 ↔
        ((check_new_portal [] ⟨0, 0, 0⟩ ⟨0, 0, 0⟩ (decide ((1 : Int) ≠ 0))).result =
            .ok true ∧ (⟨0, 0, 0⟩ : Position) = ⟨0, 0, 0⟩) ∨
        (∃ dx, (-(1 : Int) ≤ dx ∧ dx < 1 + 1) ∧ ∃ dy, (dy = -(1 : Int) ∨ dy = 1 + 1) ∧
          ∃ dz, (dz = -(1 : Int) ∨ dz = 1 + 1) ∧
            ((check_new_portal []
                ⟨(⟨0, 0, 0⟩ : Position).x + dx, (⟨0, 0, 0⟩ : Position).y + dy,
                  (⟨0, 0, 0⟩ : Position).z + dz⟩ ⟨0, 0, 0⟩ true).result = .ok true ∧
              (⟨0, 0, 0⟩ : Position) =
                ⟨(⟨0, 0, 0⟩ : Position).x + dx, (⟨0, 0, 0⟩ : Position).y + dy,
                  (⟨0, 0, 0⟩ : Position).z + dz⟩))) :=
  ⟨by decide, claim7_scan_membership [] ⟨0, 0, 0⟩ ⟨0, 0, 0⟩ 1 (by decide) ⟨0, 0, 0⟩⟩

theorem dHasKey_of_mem (m : ConnMap) (e : String × String) (h : e ∈ m) :
    dHasKey m e.1 = true :=
  List.any_eq_true.mpr ⟨e, h, by simp⟩

/-- C10: when all existing labels are pairwise distinct and none equals a
synthetic label, the stripping step of `check_new_portal` deletes exactly
the two synthetic entries from the post-insertion connection map (both
`del`s succeed, the two synthetic keys are gone, every other key keeps its
value), every key of the baseline map is still a key of the stripped map,
and therefore the before/after diff loop completes without a missing-key
lookup. -/
theorem claim10_strip_exactly_synthetics (portals : List Portal) (ow ne : Position)
    (_hnd : (portals.map Portal.label).Nodup)
    (hs1 : ∀ p ∈ portals, p.label ≠ "NEW PORTAL (overworld)")
    (hs2 : ∀ p ∈ portals, p.label ≠ "NEW PORTAL (nether)") :
    ∃ m1 m2,
      dDelE (get_connections ((portals ++ [newOverworldPortal ow]) ++ [newNetherPortal ne]))
          "NEW PORTAL (overworld)" = .ok m1 ∧
      dDelE m1 "NEW PORTAL (nether)" = .ok m2 ∧
      (∀ k, k ≠ "NEW PORTAL (overworld)" → k ≠ "NEW PORTAL (nether)" →
        dGet? m2 k =
          dGet? (get_connections ((portals ++ [newOverworldPortal ow]) ++
            [newNetherPortal ne])) k) ∧
      dGet? m2 "NEW PORTAL (overworld)" = none ∧
      dGet? m2 "NEW PORTAL (nether)" = none ∧
      (∀ k, dHasKey (get_connections portals) k = true → dHasKey m2 k = true) ∧
      (∃ vs, diffViolations (get_connections portals) m2 = .ok vs) := by
  have hne12 : ("NEW PORTAL (overworld)" : String) ≠ "NEW PORTAL (nether)" := by decide
  set big := (portals ++ [newOverworldPortal ow]) ++ [newNetherPortal ne] with hbig
  have hk1 : dHasKey (get_connections big) "NEW PORTAL (overworld)" = true := by
    rw [get_connections_hasKey]
    refine List.any_eq_true.mpr ⟨newOverworldPortal ow, ?_, by simp [newOverworldPortal]⟩
    exact List.mem_append_left _ (List.mem_append_right _ (List.mem_singleton_self _))
  have hk2 : dHasKey (get_connections big) "NEW PORTAL (nether)" = true := by
    rw [get_connections_hasKey]
    refine List.any_eq_true.mpr ⟨newNetherPortal ne, ?_, by simp [newNetherPortal]⟩
    exact List.mem_append_right _ (List.mem_singleton_self _)
  refine ⟨dDel (get_connections big) "NEW PORTAL (overworld)",
    dDel (dDel (get_connections big) "NEW PORTAL (overworld)") "NEW PORTAL (nether)",
    dDelE_ok _ _ hk1, ?_, ?_, ?_, ?_, ?_, ?_⟩
  · exact dDelE_ok _ _ (by rw [dHasKey_dDel_ne _ _ _ hne12]; exact hk2)
  · intro k hk1' hk2'
    rw [dGet?_dDel_ne _ _ _ fun h => hk2' h.symm, dGet?_dDel_ne _ _ _ fun h => hk1' h.symm]
  · rw [dGet?_dDel_ne _ _ _ fun h => hne12 h.symm, dGet?_dDel_self]
  · exact dGet?_dDel_self _ _
  · intro k hk
    rw [get_connections_hasKey] at hk
    obtain ⟨p, hp, hpl⟩ := List.any_eq_true.mp hk
    have hpl' : p.label = k := by simpa using hpl
    have hks1 : k ≠ "NEW PORTAL (overworld)" := fun h => hs1 p hp (hpl'.trans h)
    have hks2 : k ≠ "NEW PORTAL (nether)" := fun h => hs2 p hp (hpl'.trans h)
    rw [dHasKey_dDel_ne _ _ _ fun h => hks2 h.symm, dHasKey_dDel_ne _ _ _ fun h => hks1 h.symm,
      get_connections_hasKey]
    refine List.any_eq_true.mpr ⟨p, ?_, by simp [hpl']⟩
    exact List.mem_append_left _ (List.mem_append_left _ hp)
  · refine diffViolations_ok _ _ fun e he => ?_
    have hkey : dHasKey (get_connections portals) e.1 = true := dHasKey_of_mem _ e he
    rw [get_connections_hasKey] at hkey
    obtain ⟨p, hp, hpl⟩ := List.any_eq_true.mp hkey
    have hpl' : p.label = e.1 := by simpa using hpl
    have hks1 : e.1 ≠ "NEW PORTAL (overworld)" := fun h => hs1 p hp (hpl'.trans h)
    have hks2 : e.1 ≠ "NEW PORTAL (nether)" := fun h => hs2 p hp (hpl'.trans h)
    rw [dHasKey_dDel_ne _ _ _ fun h => hks2 h.symm, dHasKey_dDel_ne _ _ _ fun h => hks1 h.symm,
      get_connections_hasKey]
    refine List.any_eq_true.mpr ⟨p, ?_, by simp [hpl']⟩
    exact List.mem_append_left _ (List.mem_append_left _ hp)

/-- Witness for C10 at a concrete two-portal set. -/
theorem claim10_strip_exactly_synthetics_witness :
    (([⟨"A", ⟨0, 64, 0⟩, false⟩, ⟨"B", ⟨0, 64, 0⟩, true⟩] : List Portal).map
        Portal.label).Nodup ∧
    (∀ p ∈ ([⟨"A", ⟨0, 64, 0⟩, false⟩, ⟨"B", ⟨0, 64, 0⟩, true⟩] : List Portal),
      p.label ≠ "NEW PORTAL (overworld)") ∧
    (∀ p ∈ ([⟨"A", ⟨0, 64, 0⟩, false⟩, ⟨"B", ⟨0, 64, 0⟩, true⟩] : List Portal),
      p.label ≠ "NEW PORTAL (nether)") ∧
    (∃ m1 m2,
      dDelE (get_connections (([⟨"A", ⟨0, 64, 0⟩, false⟩, ⟨"B", ⟨0, 64, 0⟩, true⟩] ++
            [newOverworldPortal ⟨100, 0, 100⟩]) ++ [newNetherPortal ⟨12, 0, 12⟩]))
          "NEW PORTAL (overworld)" = .ok m1 ∧
      dDelE m1 "NEW PORTAL (nether)" = .ok m2 ∧
      (∀ k, k ≠ "NEW PORTAL (overworld)" → k ≠ "NEW PORTAL (nether)" →
        dGet? m2 k =
          dGet? (get_connections (([⟨"A", ⟨0, 64, 0⟩, false⟩, ⟨"B", ⟨0, 64, 0⟩, true⟩] ++
            [newOverworldPortal ⟨100, 0, 100⟩]) ++ [newNetherPortal ⟨12, 0, 12⟩])) k) ∧
      dGet? m2 "NEW PORTAL (overworld)" = none ∧
      dGet? m2 "NEW PORTAL (nether)" = none ∧
      (∀ k, dHasKey
          (get_connections [⟨"A", ⟨0, 64, 0⟩, false⟩, ⟨"B", ⟨0, 64, 0⟩, true⟩]) k = true →
        dHasKey m2 k = true) ∧
      (∃ vs, diffViolations
          (get_connections [⟨"A", ⟨0, 64, 0⟩, false⟩, ⟨"B", ⟨0, 64, 0⟩, true⟩]) m2 =
        .ok vs)) :=
  ⟨by decide, by decide, by decide,
    claim10_strip_exactly_synthetics
      [⟨"A", ⟨0, 64, 0⟩, false⟩, ⟨"B", ⟨0, 64, 0⟩, true⟩] ⟨100, 0, 100⟩ ⟨12, 0, 12⟩
      (by decide) (by decide) (by decide)⟩

/-- After the bidirectional pair for `(aL, bL)` has been recorded, the rest
of the nether loop (whose portals' labels differ from both `aL` and `bL`)
never reinstates either label as a key and never appends the pair again. -/
theorem printConnFold_after (all : List Portal) (aL bL : String) (rest : List Portal) :
    ∀ st out : ConnMap × List (String × String),
      (∀ p ∈ rest, p.label ≠ aL ∧ p.label ≠ bL) →
      dHasKey st.1 aL = false → dHasKey st.1 bL = false →
      printConnFold all st rest = .ok out →
      dHasKey out.1 aL = false ∧ dHasKey out.1 bL = false ∧
        List.count (aL, bL) out.2 = List.count (aL, bL) st.2 := by
  induction rest with
  | nil =>
    intro st out _ hka hkb hfold
    injection hfold with hfold
    subst hfold
    exact ⟨hka, hkb, rfl⟩
  | cons p ps ih =>
    intro st out hlab hka hkb hfold
    rw [printConnFold] at hfold
    cases hstep : printConnStep all st p with
    | error e =>
      rw [hstep] at hfold
      exact Except.noConfusion hfold
    | ok st' =>
      rw [hstep] at hfold
      unfold printConnStep at hstep
      cases hc : find_nether_connection p all with
      | none =>
        rw [hc] at hstep
        exact Except.noConfusion hstep
      | some c =>
        rw [hc] at hstep
        dsimp only at hstep
        by_cases hbr : dGet? st.1 c.label = some p.label
        · rw [if_pos hbr] at hstep
          injection hstep with hstep
          subst hstep
          have hcount :
              List.count (aL, bL) (st.2 ++ [(c.label, p.label)]) =
                List.count (aL, bL) st.2 := by
            rw [List.count_append]
            have : ((aL, bL) : String × String) ≠ (c.label, p.label) := by
              intro hpair
              exact (hlab p (List.mem_cons_self p ps)).2 (congrArg Prod.snd hpair).symm
            simp [List.count_singleton, this]
          have := ih _ out (fun q hq => hlab q (List.mem_cons_of_mem p hq))
            (dHasKey_dDel_false _ _ _ hka) (dHasKey_dDel_false _ _ _ hkb) hfold
          exact ⟨this.1, this.2.1, this.2.2.trans hcount⟩
        · rw [if_neg hbr] at hstep
          injection hstep with hstep
          subst hstep
          have h1 : dHasKey (dSet st.1 p.label c.label) aL = false := by
            rw [dHasKey_dSet, hka]
            simp [(hlab p (List.mem_cons_self p ps)).1]
          have h2 : dHasKey (dSet st.1 p.label c.label) bL = false := by
            rw [dHasKey_dSet, hkb]
            simp [(hlab p (List.mem_cons_self p ps)).2]
          exact ih (dSet st.1 p.label c.label, st.2) out
            (fun q hq => hlab q (List.mem_cons_of_mem p hq)) h1 h2 hfold

/-- Running the nether loop over a list that still contains `b` (whose link
resolves to `a`), starting from a state where the map sends `a.label` to
`b.label`, `b.label` is not a key, and the pair is not yet recorded:
when the loop completes, `a.label` and `b.label` are not keys and the pair
`(a.label, b.label)` is recorded exactly once. -/
theorem printConnFold_bidir (all : List Portal) (a b : Portal)
    (hBfind : find_nether_connection b all = some a) (rest : List Portal) :
    ∀ st out : ConnMap × List (String × String),
      (∀ p ∈ rest, p.label ≠ a.label) →
      (rest.map Portal.label).Nodup →
      b ∈ rest →
      dGet? st.1 a.label = some b.label →
      dHasKey st.1 b.label = false →
      List.count (a.label, b.label) st.2 = 0 →
      printConnFold all st rest = .ok out →
      dHasKey out.1 a.label = false ∧ dHasKey out.1 b.label = false ∧
        List.count (a.label, b.label) out.2 = 1 := by
  induction rest with
  | nil => intro st out _ _ hbmem; cases hbmem
  | cons p ps ih =>
    intro st out hlab hnd hbmem hgeta hkb hcnt hfold
    rw [printConnFold] at hfold
    cases hstep : printConnStep all st p with
    | error e =>
      rw [hstep] at hfold
      exact Except.noConfusion hfold
    | ok st' =>
      rw [hstep] at hfold
      simp only [List.map_cons, List.nodup_cons, List.mem_map] at hnd
      by_cases hpb : p = b
      · subst hpb
        unfold printConnStep at hstep
        rw [hBfind] at hstep
        dsimp only at hstep
        rw [if_pos (by rw [hgeta])] at hstep
        injection hstep with hstep
        subst hstep
        have hrest : ∀ q ∈ ps, q.label ≠ a.label ∧ q.label ≠ p.label := by
          intro q hq
          exact ⟨hlab q (List.mem_cons_of_mem p hq),
            fun hql => hnd.1 ⟨q, hq, hql⟩⟩
        have hcount1 :
            List.count (a.label, p.label) (st.2 ++ [(a.label, p.label)]) = 1 := by
          rw [List.count_append, hcnt]
          simp
        have := printConnFold_after all a.label p.label ps
          (dDel st.1 a.label, st.2 ++ [(a.label, p.label)]) out hrest
          (dHasKey_dDel_self _ _) (dHasKey_dDel_false _ _ _ hkb) hfold
        exact ⟨this.1, this.2.1, this.2.2.trans hcount1⟩
      · have hbmem' : b ∈ ps := by
          rcases List.mem_cons.mp hbmem with h | h
          · exact absurd h.symm hpb
          · exact h
        have hpb_lab : p.label ≠ b.label := fun hql =>
          hnd.1 ⟨b, hbmem', hql.symm⟩
        have hpa_lab : p.label ≠ a.label := hlab p (List.mem_cons_self p ps)
        unfold printConnStep at hstep
        cases hc : find_nether_connection p all with
        | none =>
          rw [hc] at hstep
          exact Except.noConfusion hstep
        | some c =>
          rw [hc] at hstep
          dsimp only at hstep
          by_cases hbr : dGet? st.1 c.label = some p.label
          · rw [if_pos hbr] at hstep
            injection hstep with hstep
            subst hstep
            have hca : c.label ≠ a.label := by
              intro hceq
              rw [hceq, hgeta] at hbr
              exact hpb_lab (Option.some.injEq _ _ ▸ hbr).symm
            have hcount :
                List.count (a.label, b.label) (st.2 ++ [(c.label, p.label)]) = 0 := by
              rw [List.count_append, hcnt]
              have : ((a.label, b.label) : String × String) ≠ (c.label, p.label) := by
                intro hpair
                exact hpb_lab (congrArg Prod.snd hpair).symm
              simp [this]
            exact ih (dDel st.1 c.label, st.2 ++ [(c.label, p.label)]) out
              (fun q hq => hlab q (List.mem_cons_of_mem p hq)) hnd.2 hbmem'
              (by rw [dGet?_dDel_ne _ _ _ hca]; exact hgeta)
              (dHasKey_dDel_false _ _ _ hkb) hcount hfold
          · rw [if_neg hbr] at hstep
            injection hstep with hstep
            subst hstep
            exact ih (dSet st.1 p.label c.label, st.2) out
              (fun q hq => hlab q (List.mem_cons_of_mem p hq)) hnd.2 hbmem'
              (by rw [dGet?_dSet_ne _ _ _ _ hpa_lab]; exact hgeta)
              (by rw [dHasKey_dSet, hkb]; simp [hpb_lab]) hcnt hfold

/-- C3: if overworld portal `a` resolves to nether portal `b` and `b`
resolves back to `a` (labels pairwise distinct across the set), then after
the connection graph is built the pair `[a.label, b.label]` appears exactly
once in the bidirectional list and neither label is a key of the final
connection map. -/
theorem claim3_bidirectional_pair_once (all : List Portal) (a b : Portal) (m : ConnMap)
    (bd : List (String × String))
    (hnd : (all.map Portal.label).Nodup)
    (ha : a ∈ all) (haw : a.is_nether = false)
    (hb : b ∈ all) (hbn : b.is_nether = true)
    (hA : find_nether_connection a all = some b)
    (hB : find_nether_connection b all = some a)
    (hok : print_connections_build all = .ok (m, bd)) :
    List.count (a.label, b.label) bd = 1 ∧
      dHasKey m a.label = false ∧ dHasKey m b.label = false := by
  have hinj := List.inj_on_of_nodup_map hnd
  unfold print_connections_build at hok
  dsimp only at hok
  have hael : a ∈ all.filter fun p => p.is_nether = false :=
    List.mem_filter.mpr ⟨ha, by simp [haw]⟩
  have hbel : b ∈ all.filter fun p => p.is_nether = true :=
    List.mem_filter.mpr ⟨hb, by simp [hbn]⟩
  have hndow : (((all.filter fun p => p.is_nether = false).map Portal.label)).Nodup :=
    List.Nodup.sublist (List.Sublist.map Portal.label (List.filter_sublist all)) hnd
  have hndne : (((all.filter fun p => p.is_nether = true).map Portal.label)).Nodup :=
    List.Nodup.sublist (List.Sublist.map Portal.label (List.filter_sublist all)) hnd
  have hgeta :
      dGet? (connFold all [] (all.filter fun p => p.is_nether = false)) a.label =
        some b.label := by
    rw [connFold_get_mem all _ [] a hndow hael]
    unfold connValue
    rw [hA]
  have hkb :
      dHasKey (connFold all [] (all.filter fun p => p.is_nether = false)) b.label =
        false := by
    rw [connFold_hasKey, dHasKey_nil, Bool.false_or, List.any_eq_false]
    intro p hp
    simp only [decide_eq_true_eq]
    intro hpl
    have hpmem := (List.mem_filter.mp hp).1
    have hpow := (List.mem_filter.mp hp).2
    have : p = b := hinj hpmem hb hpl
    rw [this] at hpow
    simp [hbn] at hpow
  have hlab : ∀ p ∈ all.filter fun q => q.is_nether = true, p.label ≠ a.label := by
    intro p hp hpl
    have hpmem := (List.mem_filter.mp hp).1
    have hpne := (List.mem_filter.mp hp).2
    have : p = a := hinj hpmem ha hpl
    rw [this] at hpne
    simp [haw] at hpne
  have := printConnFold_bidir all a b hB _
    (connFold all [] (all.filter fun p => p.is_nether = false), []) (m, bd)
    hlab hndne hbel hgeta hkb rfl hok
  exact ⟨this.2.2, this.1, this.2.1⟩

/-- Witness for C3 at a concrete mutually-linked pair. -/
theorem claim3_bidirectional_pair_once_witness :
    (([⟨"A", ⟨0, 64, 0⟩, false⟩, ⟨"B", ⟨0, 64, 0⟩, true⟩] : List Portal).map
        Portal.label).Nodup ∧
    find_nether_connection ⟨"A", ⟨0, 64, 0⟩, false⟩
        [⟨"A", ⟨0, 64, 0⟩, false⟩, ⟨"B", ⟨0, 64, 0⟩, true⟩] =
      some ⟨"B", ⟨0, 64, 0⟩, true⟩ ∧
    find_nether_connection ⟨"B", ⟨0, 64, 0⟩, true⟩
        [⟨"A", ⟨0, 64, 0⟩, false⟩, ⟨"B", ⟨0, 64, 0⟩, true⟩] =
      some ⟨"A", ⟨0, 64, 0⟩, false⟩ ∧
    print_connections_build [⟨"A", ⟨0, 64, 0⟩, false⟩, ⟨"B", ⟨0, 64, 0⟩, true⟩] =
      .ok ([], [("A", "B")]) ∧
    (List.count ("A", "B") [("A", "B")] = 1 ∧
      dHasKey [] "A" = false ∧ dHasKey [] "B" = false) :=
  ⟨by decide, by decide, by decide, by rfl,
    claim3_bidirectional_pair_once
      [⟨"A", ⟨0, 64, 0⟩, false⟩, ⟨"B", ⟨0, 64, 0⟩, true⟩]
      ⟨"A", ⟨0, 64, 0⟩, false⟩ ⟨"B", ⟨0, 64, 0⟩, true⟩ [] [("A", "B")]
      (by decide) (by decide) (by decide) (by decide) (by decide)
      (by decide) (by decide) (by rfl)⟩

/-! ## Concrete sanity evaluations of the embedded program -/

example : convert_to_nether ⟨-9, 0, 17⟩ = ⟨-2, 0, 2⟩ := by decide

example :
    find_nether_connection { label := "A", position := ⟨0, 64, 0⟩, is_nether := false }
      [{ label := "A", position := ⟨0, 64, 0⟩, is_nether := false },
       { label := "B", position := ⟨0, 64, 0⟩, is_nether := true }] =
      some { label := "B", position := ⟨0, 64, 0⟩, is_nether := true } := by decide

example :
    batch_scan [] ⟨0, 0, 0⟩ ⟨0, 0, 0⟩ 1 =
      [⟨0, 0, 0⟩, ⟨-1, -1, -1⟩, ⟨-1, -1, 2⟩, ⟨-1, 2, -1⟩, ⟨-1, 2, 2⟩,
       ⟨0, -1, -1⟩, ⟨0, -1, 2⟩, ⟨0, 2, -1⟩, ⟨0, 2, 2⟩,
       ⟨1, -1, -1⟩, ⟨1, -1, 2⟩, ⟨1, 2, -1⟩, ⟨1, 2, 2⟩] := by decide
